import Mathlib

/-!
Shallow embedding of the rs_mail_client mailbox synchronization engine
(Rust sources under src/), together with theorems settling the spec claims.

Conventions:
* Rust `u32` identifiers are `Nat`; Rust `i64` values are `Int` (casts such
  as `as u32` are modelled by an explicit `% 2^32`).
* Fallible Rust code (`Result`) is modelled with `Except String`.
* External library calls (mailparse, html2text, serde_json, the OAuth HTTP
  client, sqlite) are modelled by explicit parameters of the embedding: the
  embedded function receives the library's outcome as input, exactly at the
  call sites where the source consumes it.
-/

namespace RsMail

/-! ## Domain model (src/domain/email.rs) -/

/-- `EmailSummary` from src/domain/email.rs (id is a Rust `u32`). -/
structure EmailSummary where
  id : Nat
  from_name : String
  subject : String
  snippet : String
  date_epoch : Int
deriving Repr, DecidableEq

/-- `EmailBody` from src/domain/email.rs. -/
structure EmailBody where
  id : Nat
  body : String
deriving Repr, DecidableEq

/-! ## Generic list operations mirroring the Rust `Vec` combinators.

`Vec::dedup_by(|a, b| a.key == b.key)` removes each element whose key equals
the key of the most recently retained element, keeping the first element of
every run of consecutive duplicates. -/

/-- Tail of `Vec::dedup_by` keyed by `key`: `prev` is the last retained
element. -/
def dedupAux {α β : Type} [DecidableEq β] (key : α → β) (prev : α) :
    List α → List α
  | [] => []
  | b :: t =>
    if key b = key prev then dedupAux key prev t
    else b :: dedupAux key b t

/-- `Vec::dedup_by(|a, b| key a = key b)`: removes consecutive elements with
equal keys, keeping the first of each run. -/
def dedupByKey {α β : Type} [DecidableEq β] (key : α → β) :
    List α → List α
  | [] => []
  | a :: t => a :: dedupAux key a t

/-- Descending sort by id, the Rust `sort_by(|a, b| b.id.cmp(&a.id))`. -/
def geById (a b : EmailSummary) : Prop := b.id ≤ a.id

instance : DecidableRel geById := fun a b => Nat.decLe b.id a.id

instance : IsTotal EmailSummary geById :=
  ⟨fun a b => (Nat.le_total b.id a.id).imp id id⟩

instance : IsTrans EmailSummary geById :=
  ⟨fun _ _ _ h h' => Nat.le_trans h' h⟩

/-- Descending `Nat` order used for the uid-level view. -/
def geNat (a b : Nat) : Prop := b ≤ a

instance : DecidableRel geNat := fun a b => Nat.decLe b a

instance : IsTotal Nat geNat := ⟨fun a b => (Nat.le_total b a).imp id id⟩

instance : IsTrans Nat geNat := ⟨fun _ _ _ h h' => Nat.le_trans h' h⟩

/-- Ascending `Nat` order (`sort_unstable` on uids). -/
def leNat (a b : Nat) : Prop := a ≤ b

instance : DecidableRel leNat := fun a b => Nat.decLe a b

instance : IsTotal Nat leNat := ⟨fun a b => Nat.le_total a b⟩

instance : IsTrans Nat leNat := ⟨fun _ _ _ h h' => Nat.le_trans h h'⟩

/-! ## Pagination (src/mail/imap_client.rs, `fetch_page`)

`fetch_page` collects all uids of the mailbox, sorts ascending, slices
`[start, end)` with `end = total - page*page_size` and
`start = max (end - page_size) 0` (both as `i64`), returns the empty page
when `end <= 0`, and finally sorts the produced summaries descending by id
and deduplicates adjacent equal ids.  `fetch_page_uids` is that computation
at the uid level. -/

/-- The `i64` value `end = total - p*ps` of `fetch_page`. -/
def endIdx (total p ps : Nat) : Int := (total : Int) - (p : Int) * (ps : Int)

/-- The `i64` value `start = max (end - ps) 0` of `fetch_page`. -/
def startIdx (total p ps : Nat) : Int := max (endIdx total p ps - (ps : Int)) 0

/-- Uid-level pagination of `fetch_page`: ascending sort, slice
`[start, end)`, then the final descending sort + adjacent dedup the function
applies to its output. -/
def fetch_page_uids (uids : List Nat) (page page_size : Nat) : List Nat :=
  if uids = [] then []
  else
    let sorted := uids.insertionSort leNat
    let total := sorted.length
    let e := endIdx total page page_size
    if e ≤ 0 then []
    else
      let s := startIdx total page page_size
      let slice := (sorted.drop s.toNat).take (e.toNat - s.toNat)
      dedupByKey (fun u => u) (slice.insertionSort geNat)

/-! ## Token manager (src/auth/token_manager.rs)

`get_access_token` consults, in order: the token cache
(src/tokens_file.rs), a stored refresh token, and the interactive PKCE
flow.  The external effects — loading the refresh token and the cached
tokens file, and the two OAuth exchanges (src/auth/oauth.rs) — are inputs
of the embedding (`AuthEnv`); the persistence side effects are returned in
a `PersistLog`. -/

/-- `oauth::Tokens` (src/auth/oauth.rs). -/
structure Tokens where
  access_token : String
  refresh_token : Option String
  expires_in : Option Nat
deriving Repr, DecidableEq

/-- `TokensFile` (src/tokens_file.rs): the cached access token record. -/
structure TokensFile where
  access_token : Option String
  expires_at_epoch : Option Int
deriving Repr, DecidableEq

/-- Outcomes of the external calls `get_access_token` makes, in the order
the source consumes them. -/
structure AuthEnv where
  /-- `SystemTime::now()` as epoch seconds. -/
  now : Int
  /-- `token_store::load_refresh_token(&self.user_email)`. -/
  loadRefresh : Except String (Option String)
  /-- `tokens_file::load_tokens()`. -/
  loadCached : Except String (Option TokensFile)
  /-- `oauth::refresh_access_token(client_id, client_secret, rt)`. -/
  refreshResult : String → Except String Tokens
  /-- `oauth::perform_pkce_flow(...)`. -/
  pkceResult : Except String Tokens

/-- Record of the persistence calls performed on the success path:
`tokens_file::save_tokens(access, expiry)` and
`token_store::save_refresh_token` (attempted exactly when the exchange
returned a refresh token). -/
structure PersistLog where
  savedTokensFile : Option (Option String × Option Int)
  savedRefreshToken : Option String
deriving Repr, DecidableEq

/-- `TokenManager::persist_tokens`: the `(access_token, expires_at_epoch)`
pair written to the tokens file — `now + expires_in` when `expires_in` is
present, and no expiry otherwise. -/
def persist_tokens (now : Int) (t : Tokens) : Option String × Option Int :=
  match t.expires_in with
  | some e => (some t.access_token, some (now + (e : Int)))
  | none => (some t.access_token, none)

/-- Step 1 of `get_access_token`: the cached token is returned iff both
fields are present and `now < expires_at`. -/
def cachedHit (now : Int) (cached : Option TokensFile) : Option String :=
  match cached with
  | some tf =>
    match tf.access_token, tf.expires_at_epoch with
    | some a, some exp => if now < exp then some a else none
    | _, _ => none
  | none => none

/-- `TokenManager::get_access_token` (src/auth/token_manager.rs lines
38-77): cached token, else refresh exchange (whose failure propagates via
`?`), else interactive PKCE. -/
def get_access_token (env : AuthEnv) :
    Except String (String × PersistLog) :=
  match env.loadRefresh with
  | .error e => .error e
  | .ok refresh_token =>
    match env.loadCached with
    | .error e => .error e
    | .ok cached =>
      match cachedHit env.now cached with
      | some at_ => .ok (at_, ⟨none, none⟩)
      | none =>
        match refresh_token with
        | some rt =>
          match env.refreshResult rt with
          | .error e => .error e
          | .ok t =>
            .ok (t.access_token,
              ⟨some (persist_tokens env.now t), t.refresh_token⟩)
        | none =>
          match env.pkceResult with
          | .error e => .error e
          | .ok t =>
            .ok (t.access_token,
              ⟨some (persist_tokens env.now t), t.refresh_token⟩)

/-! ## Poll cycle notification gating (src/daemon/mod.rs, `do_poll_cycle`)

After fetching, `do_poll_cycle` sorts the merged batch descending by id and
deduplicates adjacent ids, upserts and prunes, then runs the
notification/watermark phase modelled by `poll_notify`: `max_uid` is
`iter().map(id).max().unwrap_or(0)`, `last_seen` is
`get_meta_i64("last_seen_uid").unwrap_or(0) as u32`, and the watermark is
written back with `set_meta_i64("last_seen_uid", max_uid as i64)`. -/

/-- Rust `as u32` on an `i64`: the low 32 bits. -/
def i64ToU32 (v : Int) : Nat := (v % 4294967296).toNat

/-- `sort_by(|a, b| b.id.cmp(&a.id))` followed by
`dedup_by(|a, b| a.id == b.id)`. -/
def sortDedupById (l : List EmailSummary) : List EmailSummary :=
  dedupByKey (fun s => s.id) (l.insertionSort geById)

/-- `iter().map(|x| x.id).max().unwrap_or(0)`. -/
def maxId (l : List EmailSummary) : Nat := (l.map (fun s => s.id)).foldl max 0

/-- Notification/watermark phase of `do_poll_cycle` (src/daemon/mod.rs
lines 211-261), starting from the merged `all_summaries` batch and the
stored `last_seen_uid` meta value.  Returns the summaries passed to the
notifier, in order, and the meta value written (none when the cycle
returned early on an empty batch). -/
def poll_notify (all_summaries : List EmailSummary) (meta : Option Int) :
    List EmailSummary × Option Int :=
  if all_summaries = [] then ([], none)
  else
    let batch := sortDedupById all_summaries
    let max_uid := maxId batch
    let last_seen := i64ToU32 (meta.getD 0)
    if last_seen = 0 then ([], some (max_uid : Int))
    else
      let new_items :=
        sortDedupById (batch.filter (fun x => decide (last_seen < x.id)))
      (new_items, some (max_uid : Int))

/-! ## Cache repository pruning (src/store/sqlite.rs, `prune_keep_recent`)

The store is modelled as the three tables plus meta; `id` is the primary
key of `emails`, so rows have pairwise distinct ids.  `prune_keep_recent`
deletes every `emails` row whose id is not among the first `keep` ids in
`(date_epoch DESC, id DESC)` order, then deletes `bodies` and
`raw_messages` rows whose id no longer appears in `emails` — one
transaction, modelled as a single pure state transition. -/

/-- In-memory model of the sqlite store. -/
structure Store where
  emails : List EmailSummary
  bodies : List (Nat × String)
  raws : List (Nat × List Nat)
  meta : List (String × Int)
deriving Repr

/-- The `ORDER BY date_epoch DESC, id DESC` total order on summary rows. -/
def rowGE (a b : EmailSummary) : Prop :=
  b.date_epoch < a.date_epoch ∨ (a.date_epoch = b.date_epoch ∧ b.id ≤ a.id)

instance : DecidableRel rowGE := fun a b => by
  unfold rowGE; infer_instance

instance : IsTotal EmailSummary rowGE := by
  constructor
  intro a b
  rcases lt_trichotomy a.date_epoch b.date_epoch with h | h | h
  · exact Or.inr (Or.inl h)
  · rcases Nat.le_total b.id a.id with h' | h'
    · exact Or.inl (Or.inr ⟨h, h'⟩)
    · exact Or.inr (Or.inr ⟨h.symm, h'⟩)
  · exact Or.inl (Or.inl h)

instance : IsTrans EmailSummary rowGE := by
  constructor
  intro a b c hab hbc
  rcases hab with h1 | ⟨h1, h1'⟩
  · rcases hbc with h2 | ⟨h2, h2'⟩
    · exact Or.inl (h2.trans h1)
    · exact Or.inl (h2 ▸ h1)
  · rcases hbc with h2 | ⟨h2, h2'⟩
    · exact Or.inl (h1 ▸ h2)
    · exact Or.inr ⟨h1.trans h2, h2'.trans h1'⟩

/-- The ids selected by
`SELECT id FROM emails ORDER BY date_epoch DESC, id DESC LIMIT keep`. -/
def topIds (emails : List EmailSummary) (keep : Nat) : List Nat :=
  ((emails.insertionSort rowGE).take keep).map (fun s => s.id)

/-- `SqliteRepo::prune_keep_recent` (src/store/sqlite.rs lines 168-203). -/
def prune_keep_recent (st : Store) (keep : Nat) : Store :=
  let kept := topIds st.emails keep
  let emails := st.emails.filter (fun e => decide (e.id ∈ kept))
  let survivors := emails.map (fun s => s.id)
  { st with
    emails := emails
    bodies := st.bodies.filter (fun b => decide (b.1 ∈ survivors))
    raws := st.raws.filter (fun r => decide (r.1 ∈ survivors)) }

/-! ## MIME extraction (src/mail/imap_client.rs, src/mail/decoders.rs)

Raw message bytes are `List Nat`.  The mailparse / html2text library calls
are modelled by `MimeLib`: `parseMail` is `mailparse::parse_mail`,
producing a `ParsedMail` tree whose `body` field is the part's
`get_body()` outcome and whose `dateResult` field is the combined
`headers.get_first_value("Date").and_then(|d| dateparse(&d).ok())`;
`parseHeaderValue` is `mailparse::parse_header(line)` followed by
`get_value()`; `htmlFromRead` is `html2text::from_read`;
`fromUtf8Lossy` is `String::from_utf8_lossy`. -/

/-- A parsed MIME part: `ctype.mimetype` (as in the source, not yet
lowercased), the `get_body()` outcome, the parsed `Date` header of this
part, and the subparts. -/
inductive ParsedMail where
  | mk (mimetype : String) (body : Except Unit String)
      (dateResult : Option Int) (subparts : List ParsedMail)

def ParsedMail.mimetype : ParsedMail → String
  | .mk m _ _ _ => m

def ParsedMail.body : ParsedMail → Except Unit String
  | .mk _ b _ _ => b

def ParsedMail.dateResult : ParsedMail → Option Int
  | .mk _ _ d _ => d

def ParsedMail.subparts : ParsedMail → List ParsedMail
  | .mk _ _ _ s => s

/-- Outcomes of the external mail-parsing library calls. -/
structure MimeLib where
  parseMail : List Nat → Except Unit ParsedMail
  parseHeaderValue : List Nat → Except Unit String
  htmlFromRead : String → Except Unit String
  fromUtf8Lossy : List Nat → String

/-- Rust `char::to_ascii_lowercase`. -/
def asciiLowerChar (c : Char) : Char :=
  if 'A' ≤ c ∧ c ≤ 'Z' then Char.ofNat (c.toNat + 32) else c

/-- Rust `str::to_ascii_lowercase`. -/
def asciiLower (s : String) : String :=
  String.mk (s.toList.map asciiLowerChar)

/-- `strip_html_minimal` (src/mail/imap_client.rs lines 302-314). -/
def strip_html_minimal (html : String) : String :=
  (html.toList.foldl
    (fun acc ch =>
      if ch = '<' then (acc.1, true)
      else if ch = '>' then (acc.1, false)
      else if acc.2 then acc
      else (acc.1.push ch, acc.2))
    ("", false)).1

/-- `html_to_text` (src/mail/imap_client.rs lines 295-300). -/
def html_to_text (lib : MimeLib) (html : String) : String :=
  match lib.htmlFromRead html with
  | .ok s => s
  | .error _ => strip_html_minimal html

mutual

/-- `extract_text_part` (src/mail/imap_client.rs lines 274-293): at each
node, its own `text/plain` body first, then the subparts left to right,
then its own `text/html` body converted to text. -/
def extract_text_part (lib : MimeLib) : ParsedMail → Option String
  | .mk mimetype body _ subparts =>
    let mime := asciiLower mimetype
    if mime = "text/plain" then body.toOption
    else
      match extract_text_subparts lib subparts with
      | some t => some t
      | none =>
        if mime = "text/html" then
          match body with
          | .ok html => some (html_to_text lib html)
          | .error _ => none
        else none

/-- The `for sp in &p.subparts` loop of `extract_text_part`. -/
def extract_text_subparts (lib : MimeLib) : List ParsedMail → Option String
  | [] => none
  | sp :: rest =>
    match extract_text_part lib sp with
    | some t => some t
    | none => extract_text_subparts lib rest

end

/-- `extract_best_effort_body_and_date` (src/mail/imap_client.rs lines
253-272). -/
def extract_best_effort_body_and_date (lib : MimeLib) (raw_rfc822 : List Nat) :
    String × Int :=
  match lib.parseMail raw_rfc822 with
  | .ok parsed =>
    let date_epoch := parsed.dateResult.getD 0
    let body :=
      match extract_text_part lib parsed with
      | some t => t
      | none =>
        match parsed.body with
        | .ok b => b
        | .error _ => lib.fromUtf8Lossy raw_rfc822
    (body, date_epoch)
  | .error _ => (lib.fromUtf8Lossy raw_rfc822, 0)

/-- The bytes of the synthetic header line `"Subject: " ++ raw ++ "\r\n"`
built by `decode_subject` (src/mail/decoders.rs lines 1-11); the prefix is
the UTF-8 bytes of `"Subject: "`. -/
def subjectHeaderLine (raw : List Nat) : List Nat :=
  [83, 117, 98, 106, 101, 99, 116, 58, 32] ++ raw ++ [13, 10]

/-- `decode_subject` (src/mail/decoders.rs): parse the synthetic header
line with mailparse (which decodes RFC 2047 encoded words) and fall back
to the lossy UTF-8 decoding of the raw bytes on parse failure. -/
def decode_subject (lib : MimeLib) (raw : List Nat) : String :=
  match lib.parseHeaderValue (subjectHeaderLine raw) with
  | .ok v => v
  | .error _ => lib.fromUtf8Lossy raw

/-- The envelope fields of a fetch response consumed by the subject logic
of `fetch_page`. -/
structure Envelope where
  subject : Option (List Nat)

/-- The subject computation of `fetch_page` (src/mail/imap_client.rs lines
128-132) for one fetched message: `env.and_then(|e| e.subject)
.map(decode_subject).unwrap_or_else(|| "(no subject)".to_string())`.
The raw body bytes of the message are in scope at this point in the loop
and are passed here to show they are not consulted. -/
def fetch_page_subject (lib : MimeLib) (env : Option Envelope)
    (_raw : List Nat) : String :=
  match env.bind (fun e => e.subject) with
  | some s => decode_subject lib s
  | none => "(no subject)"

/-! ## Local control protocol (src/ipc/mod.rs, src/daemon/mod.rs)

A frame is a 4-byte big-endian length prefix followed by that many bytes
of JSON.  `serde_json::from_slice::<Request>` is modelled by the `parse`
parameter; the `SyncPage` handler's sync pipeline (token + imap + store)
is modelled by the `sync` parameter of `handle_ipc_request`. -/

/-- `ipc::Request`. -/
inductive Request where
  | ping
  | syncPage (page : Nat) (page_size : Nat)
deriving Repr, DecidableEq

/-- `ipc::Response`. -/
structure Response where
  ok : Bool
  message : Option String
deriving Repr, DecidableEq

/-- `u32::from_be_bytes`. -/
def be32 (b0 b1 b2 b3 : Nat) : Nat :=
  ((b0 * 256 + b1) * 256 + b2) * 256 + b3

/-- `read_len_prefixed_json` (src/daemon/mod.rs lines 378-391): read the
4-byte prefix, reject with an error when `n > 1024 * 1024` — before the
payload buffer is allocated or read — and otherwise read and parse `n`
payload bytes. -/
def read_len_prefixed_json (parse : List Nat → Except String Request)
    (stream : List Nat) : Except String Request :=
  match stream with
  | b0 :: b1 :: b2 :: b3 :: rest =>
    let n := be32 b0 b1 b2 b3
    if n > 1024 * 1024 then Except.error "IPC message too large"
    else if rest.length < n then Except.error "unexpected EOF"
    else parse (rest.take n)
  | _ => Except.error "unexpected EOF"

/-- `handle_ipc_request` (src/daemon/mod.rs lines 264-326): `Ping` answers
`{ok: true, message: "pong"}`; `SyncPage` runs the sync pipeline, modelled
by `sync`. -/
def handle_ipc_request (sync : Nat → Nat → Response) :
    Request → Response
  | .ping => { ok := true, message := some "pong" }
  | .syncPage page page_size => sync page page_size

/-- `drain_ipc` (src/daemon/mod.rs lines 350-375): every pending
connection is accepted and answered — a frame that parses is dispatched to
`handle_ipc_request`, and a frame that fails to read or parse is answered
with `{ok: false, message: "bad request"}`; the loop then continues with
the next connection. -/
def drain_ipc (parse : List Nat → Except String Request)
    (sync : Nat → Nat → Response) (conns : List (List Nat)) :
    List Response :=
  conns.map (fun stream =>
    match read_len_prefixed_json parse stream with
    | .ok req => handle_ipc_request sync req
    | .error _ => { ok := false, message := some "bad request" })

mutual

/-- Whether a MIME tree contains a `text/plain` part anywhere (the
condition under which claim C8 requires the `text/plain` content to be
chosen). -/
def hasPlainPart : ParsedMail → Bool
  | .mk mimetype _ _ subparts =>
    decide (asciiLower mimetype = "text/plain") || hasPlainPartList subparts

/-- `hasPlainPart` over a list of subparts. -/
def hasPlainPartList : List ParsedMail → Bool
  | [] => false
  | p :: t => hasPlainPart p || hasPlainPartList t

end

mutual

/-- The candidate texts of `extract_text_part` in the order the code's
traversal considers them: the node's own `text/plain` body, then the
candidates of the subparts left to right, then the node's own `text/html`
body converted to text.  `extract_text_part` returns the head of this
list (proved below). -/
def textCandidates (lib : MimeLib) : ParsedMail → List String
  | .mk mimetype body _ subparts =>
    if asciiLower mimetype = "text/plain" then
      match body with
      | .ok s => [s]
      | .error _ => []
    else
      textCandidatesList lib subparts ++
        (if asciiLower mimetype = "text/html" then
          match body with
          | .ok h => [html_to_text lib h]
          | .error _ => []
        else [])

/-- `textCandidates` over a list of subparts. -/
def textCandidatesList (lib : MimeLib) : List ParsedMail → List String
  | [] => []
  | p :: t => textCandidates lib p ++ textCandidatesList lib t

end

/-! # Theorems -/

/-! Facts about `dedupAux`/`dedupByKey` used throughout: the result is a
sublist of the input, key-membership is preserved, and on a list sorted
descending by key the result is strictly descending by key. -/

theorem dedupAux_subset {α β : Type} [DecidableEq β] (key : α → β) :
    ∀ (l : List α) (prev : α), ∀ x ∈ dedupAux key prev l, x ∈ l := by
  intro l
  induction l with
  | nil => intro prev x hx; simp [dedupAux] at hx
  | cons b t ih =>
    intro prev x hx
    simp only [dedupAux] at hx
    by_cases hk : key b = key prev
    · simp only [if_pos hk] at hx
      exact List.mem_cons_of_mem b (ih prev x hx)
    · simp only [if_neg hk, List.mem_cons] at hx
      rcases hx with rfl | hx
      · exact List.mem_cons_self x t
      · exact List.mem_cons_of_mem b (ih b x hx)

theorem dedupByKey_subset {α β : Type} [DecidableEq β] (key : α → β)
    (l : List α) : ∀ x ∈ dedupByKey key l, x ∈ l := by
  cases l with
  | nil => intro x hx; simp [dedupByKey] at hx
  | cons a t =>
    intro x hx
    simp only [dedupByKey, List.mem_cons] at hx
    rcases hx with rfl | hx
    · exact List.mem_cons_self x t
    · exact List.mem_cons_of_mem a (dedupAux_subset key t a x hx)

theorem mem_map_key_dedupAux {α β : Type} [DecidableEq β] (key : α → β) :
    ∀ (l : List α) (prev : α) (i : β),
      (i ∈ (dedupAux key prev l).map key ∨ i = key prev) ↔
        (i ∈ l.map key ∨ i = key prev) := by
  intro l
  induction l with
  | nil => intro prev i; simp [dedupAux]
  | cons b t ih =>
    intro prev i
    simp only [dedupAux]
    by_cases hk : key b = key prev
    · simp only [if_pos hk, List.map_cons, List.mem_cons]
      rw [ih prev i]
      constructor
      · rintro (h | h)
        · exact Or.inl (Or.inr h)
        · exact Or.inr h
      · rintro ((h | h) | h)
        · exact Or.inr (h.trans hk)
        · exact Or.inl h
        · exact Or.inr h
    · simp only [if_neg hk, List.map_cons, List.mem_cons]
      constructor
      · rintro ((h | h) | h)
        · exact Or.inl (Or.inl h)
        · rcases (ih b i).mp (Or.inl h) with h' | h'
          · exact Or.inl (Or.inr h')
          · exact Or.inl (Or.inl h')
        · exact Or.inr h
      · rintro ((h | h) | h)
        · exact Or.inl (Or.inl h)
        · rcases (ih b i).mpr (Or.inl h) with h' | h'
          · exact Or.inl (Or.inr h')
          · exact Or.inl (Or.inl (h'.trans (Eq.refl (key b))))
        · exact Or.inr h

theorem mem_map_key_dedupByKey {α β : Type} [DecidableEq β] (key : α → β)
    (l : List α) (i : β) :
    i ∈ (dedupByKey key l).map key ↔ i ∈ l.map key := by
  cases l with
  | nil => simp [dedupByKey]
  | cons a t =>
    simp only [dedupByKey, List.map_cons, List.mem_cons]
    constructor
    · rintro (h | h)
      · exact Or.inl h
      · rcases (mem_map_key_dedupAux key t a i).mp (Or.inl h) with h' | h'
        · exact Or.inr h'
        · exact Or.inl h'
    · rintro (h | h)
      · exact Or.inl h
      · rcases (mem_map_key_dedupAux key t a i).mpr (Or.inl h) with h' | h'
        · exact Or.inr h'
        · exact Or.inl h'

theorem dedupAux_pairwise_lt {α : Type} (key : α → Nat) :
    ∀ (l : List α) (prev : α),
      (∀ b ∈ l, key b ≤ key prev) →
      l.Pairwise (fun a b => key b ≤ key a) →
      (prev :: dedupAux key prev l).Pairwise (fun a b => key b < key a) := by
  intro l
  induction l with
  | nil => intro prev _ _; simp [dedupAux]
  | cons b t ih =>
    intro prev hle hpw
    rcases List.pairwise_cons.mp hpw with ⟨hbt, hpt⟩
    simp only [dedupAux]
    by_cases hk : key b = key prev
    · simp only [if_pos hk]
      exact ih prev (fun c hc => hle c (List.mem_cons_of_mem b hc)) hpt
    · simp only [if_neg hk]
      have hblt : key b < key prev :=
        lt_of_le_of_ne (hle b (List.mem_cons_self b t)) hk
      have htail := ih b hbt hpt
      refine List.pairwise_cons.mpr ⟨?_, htail⟩
      intro x hx
      rcases List.mem_cons.mp hx with rfl | hx
      · exact hblt
      · exact lt_of_le_of_lt (hbt x (dedupAux_subset key t b x hx)) hblt

theorem dedupByKey_pairwise_lt {α : Type} (key : α → Nat) (l : List α)
    (h : l.Pairwise (fun a b => key b ≤ key a)) :
    (dedupByKey key l).Pairwise (fun a b => key b < key a) := by
  cases l with
  | nil => simp [dedupByKey]
  | cons a t =>
    rcases List.pairwise_cons.mp h with ⟨hat, hpt⟩
    exact dedupAux_pairwise_lt key t a hat hpt


/-- Claim C3: for the ascending identifier set 1..45 and page_size 20,
`fetch_page`'s pagination slice yields page 0 = 45..26 descending, page 1 =
25..6, page 2 = 5..1, page 3 = empty; in general `end = total - p*ps`,
`start = max (end - ps) 0`, the page is empty when `end <= 0` or
`start >= end`, and the result is sorted descending. -/
theorem fetch_page_pagination :
    (fetch_page_uids (List.range' 1 45) 0 20 =
       [45, 44, 43, 42, 41, 40, 39, 38, 37, 36,
        35, 34, 33, 32, 31, 30, 29, 28, 27, 26] ∧
     fetch_page_uids (List.range' 1 45) 1 20 =
       [25, 24, 23, 22, 21, 20, 19, 18, 17, 16,
        15, 14, 13, 12, 11, 10, 9, 8, 7, 6] ∧
     fetch_page_uids (List.range' 1 45) 2 20 = [5, 4, 3, 2, 1] ∧
     fetch_page_uids (List.range' 1 45) 3 20 = []) ∧
    (∀ uids p ps, (endIdx uids.length p ps ≤ 0 ∨
        endIdx uids.length p ps ≤ startIdx uids.length p ps) →
      fetch_page_uids uids p ps = []) ∧
    (∀ uids p ps,
      (fetch_page_uids uids p ps).Pairwise (fun a b => b ≤ a)) := by
  refine ⟨⟨by decide, by decide, by decide, by decide⟩, ?_, ?_⟩
  · intro uids p ps h
    by_cases huids : uids = []
    · rw [huids]; rfl
    · have hlen : (uids.insertionSort leNat).length = uids.length :=
        (List.perm_insertionSort leNat uids).length_eq
      unfold fetch_page_uids
      rw [if_neg huids]
      dsimp only
      rw [hlen]
      by_cases he : endIdx uids.length p ps ≤ 0
      · rw [if_pos he]
      · rw [if_neg he]
        have hse : endIdx uids.length p ps ≤ startIdx uids.length p ps :=
          h.resolve_left he
        have h0 : (endIdx uids.length p ps).toNat -
            (startIdx uids.length p ps).toNat = 0 :=
          Nat.sub_eq_zero_of_le (Int.toNat_le_toNat hse)
        rw [h0, List.take_zero]
        rfl
  · intro uids p ps
    by_cases huids : uids = []
    · rw [huids]; exact List.Pairwise.nil
    · unfold fetch_page_uids
      rw [if_neg huids]
      dsimp only
      by_cases he : endIdx (uids.insertionSort leNat).length p ps ≤ 0
      · rw [if_pos he]; exact List.Pairwise.nil
      · rw [if_neg he]
        have hs := List.sorted_insertionSort geNat
          (((uids.insertionSort leNat).drop
            (startIdx (uids.insertionSort leNat).length p ps).toNat).take
            ((endIdx (uids.insertionSort leNat).length p ps).toNat -
             (startIdx (uids.insertionSort leNat).length p ps).toNat))
        have hd := dedupByKey_pairwise_lt (fun u => u) _ hs
        exact hd.imp (fun h => Nat.le_of_lt h)

/-- Witness for the hypothesis of `fetch_page_pagination`: for 3
identifiers, page 5 of size 2 has `end = 3 - 10 ≤ 0` and the page is
empty. -/
theorem fetch_page_pagination_witness :
    fetch_page_uids [1, 2, 3] 5 2 = [] :=
  fetch_page_pagination.2.1 [1, 2, 3] 5 2 (Or.inl (by decide))

/-- Counterexample to claim C1: a call state with no usable cached token, a
present refresh credential whose exchange fails, and an interactive (PKCE)
flow that would succeed.  `get_access_token` returns the refresh-exchange
error instead of running the consent flow. -/
theorem refresh_failure_returns_error_cx :
    get_access_token
      { now := 1000
        loadRefresh := Except.ok (some "rt0")
        loadCached := Except.ok none
        refreshResult := fun _ => Except.error "refresh exchange failed"
        pkceResult :=
          Except.ok ⟨"pkce_access", some "pkce_refresh", some 3600⟩ } =
      Except.error "refresh exchange failed" ∧
    (Except.ok ⟨"pkce_access", some "pkce_refresh", some 3600⟩ :
        Except String Tokens).isOk = true := by
  exact ⟨rfl, rfl⟩

/-- Claim C1 as amended: when no unexpired cached access token exists and a
refresh credential is present but the refresh exchange fails, the error of
the exchange is returned (the `?` operator propagates it); the interactive
consent flow runs only when no refresh credential is stored. -/
theorem refresh_failure_propagates (env : AuthEnv)
    (cached : Option TokensFile) (rt e : String)
    (h1 : env.loadRefresh = Except.ok (some rt))
    (h2 : env.loadCached = Except.ok cached)
    (h3 : cachedHit env.now cached = none)
    (h4 : env.refreshResult rt = Except.error e) :
    get_access_token env = Except.error e := by
  unfold get_access_token
  rw [h1, h2]
  dsimp only
  rw [h3]
  dsimp only
  rw [h4]

/-- Witness for `refresh_failure_propagates`. -/
theorem refresh_failure_propagates_witness :
    get_access_token
      { now := 7
        loadRefresh := Except.ok (some "r")
        loadCached := Except.ok none
        refreshResult := fun _ => Except.error "boom"
        pkceResult := Except.ok ⟨"a", none, none⟩ } =
      Except.error "boom" :=
  refresh_failure_propagates _ none "r" "boom" rfl rfl rfl rfl

/-- Counterexample to claim C2: a successful refresh exchange whose
provider response omits `expires_in`.  `persist_tokens` writes the access
token with no expiry at all — not a conservative fallback expiry. -/
theorem persist_no_expiry_cx :
    persist_tokens 1000 ⟨"A", none, none⟩ = (some "A", none) ∧
    get_access_token
      { now := 1000
        loadRefresh := Except.ok (some "rt0")
        loadCached := Except.ok none
        refreshResult := fun _ => Except.ok ⟨"A", none, none⟩
        pkceResult := Except.error "unused" } =
      Except.ok ("A", ⟨some (some "A", none), none⟩) := by
  exact ⟨rfl, rfl⟩

/-- Claim C2 as amended: after every successful token exchange (refresh or
interactive), the new access token is persisted to the token cache with
absolute expiry `now + expires_in` when the provider supplies `expires_in`,
and with no expiry when the provider omits it; a rotated refresh credential
is persisted exactly when the exchange returned one. -/
theorem persist_after_successful_exchange (env : AuthEnv)
    (cached : Option TokensFile) (t : Tokens)
    (h2 : env.loadCached = Except.ok cached)
    (h3 : cachedHit env.now cached = none) :
    (∀ rt, env.loadRefresh = Except.ok (some rt) →
      env.refreshResult rt = Except.ok t →
      get_access_token env =
        Except.ok (t.access_token,
          ⟨some (persist_tokens env.now t), t.refresh_token⟩)) ∧
    (env.loadRefresh = Except.ok none →
      env.pkceResult = Except.ok t →
      get_access_token env =
        Except.ok (t.access_token,
          ⟨some (persist_tokens env.now t), t.refresh_token⟩)) ∧
    (∀ exp, t.expires_in = some exp →
      persist_tokens env.now t =
        (some t.access_token, some (env.now + (exp : Int)))) ∧
    (t.expires_in = none →
      persist_tokens env.now t = (some t.access_token, none)) := by
  refine ⟨?_, ?_, ?_, ?_⟩
  · intro rt h1 h4
    unfold get_access_token
    rw [h1, h2]
    dsimp only
    rw [h3]
    dsimp only
    rw [h4]
  · intro h1 h4
    unfold get_access_token
    rw [h1, h2]
    dsimp only
    rw [h3]
    dsimp only
    rw [h4]
  · intro exp hexp
    unfold persist_tokens
    rw [hexp]
  · intro hexp
    unfold persist_tokens
    rw [hexp]

/-- Witness for `persist_after_successful_exchange`: a refresh exchange
returning `expires_in = 3600` at `now = 1000` persists expiry 4600 and the
rotated refresh token. -/
theorem persist_after_successful_exchange_witness :
    get_access_token
      { now := 1000
        loadRefresh := Except.ok (some "rt0")
        loadCached := Except.ok none
        refreshResult := fun _ => Except.ok ⟨"A", some "rt1", some 3600⟩
        pkceResult := Except.error "unused" } =
      Except.ok ("A", ⟨some (some "A", some 4600), some "rt1"⟩) :=
  (persist_after_successful_exchange _ none ⟨"A", some "rt1", some 3600⟩
    rfl rfl).1 "rt0" rfl rfl

theorem foldl_max_init_le : ∀ (xs : List Nat) (a : Nat), a ≤ xs.foldl max a := by
  intro xs
  induction xs with
  | nil => intro a; exact Nat.le_refl a
  | cons x t ih =>
    intro a
    exact le_trans (Nat.le_max_left a x) (ih (max a x))

theorem le_foldl_max : ∀ (xs : List Nat) (a x : Nat), x ∈ xs → x ≤ xs.foldl max a := by
  intro xs
  induction xs with
  | nil => intro a x hx; cases hx
  | cons y t ih =>
    intro a x hx
    rcases List.mem_cons.mp hx with rfl | hx
    · exact le_trans (Nat.le_max_right a x) (foldl_max_init_le t (max a x))
    · exact ih (max a y) x hx

theorem foldl_max_cases : ∀ (xs : List Nat) (a : Nat), xs.foldl max a = a ∨ xs.foldl max a ∈ xs := by
  intro xs
  induction xs with
  | nil => intro a; exact Or.inl rfl
  | cons x t ih =>
    intro a
    have hfold : List.foldl max a (x :: t) = List.foldl max (max a x) t := rfl
    rcases ih (max a x) with h | h
    · rcases Nat.le_total a x with hax | hxa
      · right
        rw [hfold, h, Nat.max_eq_right hax]
        exact List.mem_cons_self x t
      · left
        rw [hfold, h, Nat.max_eq_left hxa]
    · right
      rw [hfold]
      exact List.mem_cons_of_mem x h

theorem foldl_max_congr {xs ys : List Nat} (h : ∀ i, i ∈ xs ↔ i ∈ ys) :
    xs.foldl max 0 = ys.foldl max 0 := by
  apply Nat.le_antisymm
  · rcases foldl_max_cases xs 0 with h0 | hm
    · rw [h0]; exact Nat.zero_le _
    · exact le_foldl_max ys 0 _ ((h _).mp hm)
  · rcases foldl_max_cases ys 0 with h0 | hm
    · rw [h0]; exact Nat.zero_le _
    · exact le_foldl_max xs 0 _ ((h _).mpr hm)

theorem mem_map_id_sortDedupById (l : List EmailSummary) (i : Nat) :
    i ∈ (sortDedupById l).map (fun s => s.id) ↔ i ∈ l.map (fun s => s.id) := by
  unfold sortDedupById
  rw [mem_map_key_dedupByKey]
  exact ((List.perm_insertionSort geById l).map (fun s => s.id)).mem_iff

theorem sortDedupById_pairwise (l : List EmailSummary) :
    (sortDedupById l).Pairwise (fun a b => b.id < a.id) := by
  unfold sortDedupById
  exact dedupByKey_pairwise_lt (fun s : EmailSummary => s.id) _
    ((List.sorted_insertionSort geById l).imp (fun h => h))

theorem maxId_sortDedupById (l : List EmailSummary) :
    maxId (sortDedupById l) = maxId l :=
  foldl_max_congr (fun i => mem_map_id_sortDedupById l i)

theorem mem_map_id_filter_lt (l : List EmailSummary) (c i : Nat) :
    i ∈ (l.filter (fun x => decide (c < x.id))).map (fun s => s.id) ↔
      (i ∈ l.map (fun s => s.id) ∧ c < i) := by
  simp only [List.mem_map, List.mem_filter, decide_eq_true_eq]
  constructor
  · rintro ⟨x, ⟨hx, hc⟩, rfl⟩
    exact ⟨⟨x, hx, rfl⟩, hc⟩
  · rintro ⟨⟨x, hx, rfl⟩, hc⟩
    exact ⟨x, ⟨hx, hc⟩, rfl⟩

/-- Claim C4: in every poll cycle with a non-empty deduplicated batch, an
unset/zero watermark yields zero notifications and the watermark becomes
the batch maximum; otherwise exactly the fetched identifiers strictly
greater than the watermark are notified, in strictly descending order, and
the watermark becomes the batch maximum.  Concretely: cycle ids {10,9,8}
at watermark 0 notify nothing and set 10; cycle ids {12,11,10,9,8} at
watermark 10 notify 12 then 11 and set 12. -/
theorem poll_notify_watermark_gating :
    (∀ all_summaries meta, all_summaries ≠ [] →
      (i64ToU32 (meta.getD 0) = 0 →
        poll_notify all_summaries meta =
        ([], some ((maxId all_summaries : Int)))) ∧
      (i64ToU32 (meta.getD 0) ≠ 0 →
        (poll_notify all_summaries meta).2 = some ((maxId all_summaries : Int)) ∧
        (∀ i, i ∈ (poll_notify all_summaries meta).1.map (fun s => s.id) ↔
          (i ∈ all_summaries.map (fun s => s.id) ∧
            i64ToU32 (meta.getD 0) < i)) ∧
        (poll_notify all_summaries meta).1.Pairwise
          (fun a b => b.id < a.id))) ∧
    poll_notify [⟨10, "", "", "", 0⟩, ⟨9, "", "", "", 0⟩, ⟨8, "", "", "", 0⟩]
      (some 0) = ([], some 10) ∧
    poll_notify [⟨12, "", "", "", 0⟩, ⟨11, "", "", "", 0⟩, ⟨10, "", "", "", 0⟩,
      ⟨9, "", "", "", 0⟩, ⟨8, "", "", "", 0⟩] (some 10) =
      ([⟨12, "", "", "", 0⟩, ⟨11, "", "", "", 0⟩], some 12) := by
  refine ⟨?_, by decide, by decide⟩
  intro all meta hne
  constructor
  · intro h0
    unfold poll_notify
    rw [if_neg hne]
    dsimp only
    rw [if_pos h0, maxId_sortDedupById]
  · intro hne0
    unfold poll_notify
    rw [if_neg hne]
    dsimp only
    rw [if_neg hne0]
    refine ⟨by rw [maxId_sortDedupById], ?_, ?_⟩
    · intro i
      rw [mem_map_id_sortDedupById, mem_map_id_filter_lt]
      constructor
      · rintro ⟨hm, hlt⟩
        exact ⟨(mem_map_id_sortDedupById all i).mp hm, hlt⟩
      · rintro ⟨hm, hlt⟩
        exact ⟨(mem_map_id_sortDedupById all i).mpr hm, hlt⟩
    · exact sortDedupById_pairwise _

/-- Counterexample to claim C5: a cycle whose batch maximum (5) is below
the current watermark (10) writes 5 back, so the persisted `last_seen_uid`
decreases. -/
theorem watermark_decreases_cx :
    poll_notify [⟨5, "", "", "", 0⟩] (some 10) = ([], some 5) ∧
    (5 : Int) < 10 := by
  exact ⟨by decide, by decide⟩

/-- Claim C5 as amended: at the end of every non-empty poll cycle the
watermark is overwritten with the batch's maximum identifier,
unconditionally; hence it is non-decreasing exactly across cycles whose
batch maximum is at least the current watermark, and it decreases when a
batch's maximum is below the watermark. -/
theorem watermark_equals_batch_max (all : List EmailSummary)
    (meta : Option Int) (h : all ≠ []) :
    (poll_notify all meta).2 = some ((maxId all : Int)) ∧
    (meta.getD 0 ≤ (maxId all : Int) →
      meta.getD 0 ≤ ((poll_notify all meta).2.getD 0)) := by
  have h2 : (poll_notify all meta).2 = some ((maxId all : Int)) := by
    unfold poll_notify
    rw [if_neg h]
    dsimp only
    by_cases h0 : i64ToU32 (meta.getD 0) = 0
    · rw [if_pos h0]
      dsimp only
      rw [maxId_sortDedupById]
    · rw [if_neg h0]
      dsimp only
      rw [maxId_sortDedupById]
  refine ⟨h2, ?_⟩
  intro hle
  rw [h2]
  exact hle

/-- Witness for `poll_notify_watermark_gating`: one summary with id 3 and
watermark 0 notifies nothing and sets the watermark to 3. -/
theorem poll_notify_watermark_gating_witness :
    poll_notify [⟨3, "", "", "", 0⟩] (some 0) = ([], some 3) :=
  (poll_notify_watermark_gating.1 [⟨3, "", "", "", 0⟩] (some 0)
    (by decide)).1 (by decide)

/-- Witness for `watermark_equals_batch_max`. -/
theorem watermark_equals_batch_max_witness :
    (poll_notify [⟨7, "", "", "", 0⟩] (some 3)).2 = some 7 :=
  (watermark_equals_batch_max [⟨7, "", "", "", 0⟩] (some 3) (by decide)).1

/-- Claim C6: for a store whose summary rows have pairwise distinct ids
(`id` is the primary key), `prune_keep_recent keep` leaves exactly
`min n keep` summary rows, each a row of the original store, every
survivor ordered at or above every pruned row under the
`(date_epoch desc, id desc)` order, and afterwards every body row and
every raw row has a surviving summary row with its id (the cascade leaves
no orphans).  The two cascading deletes and the summary delete happen in
one transaction, modelled here as a single pure state transition. -/
theorem prune_keep_recent_spec (st : Store) (keep : Nat)
    (hnodup : (st.emails.map (fun s => s.id)).Nodup) :
    (prune_keep_recent st keep).emails.length = min st.emails.length keep ∧
    (∀ e ∈ (prune_keep_recent st keep).emails, e ∈ st.emails) ∧
    (∀ e ∈ (prune_keep_recent st keep).emails,
      ∀ e' ∈ st.emails, e' ∉ (prune_keep_recent st keep).emails → rowGE e e') ∧
    (∀ b ∈ (prune_keep_recent st keep).bodies,
      ∃ e ∈ (prune_keep_recent st keep).emails, e.id = b.1) ∧
    (∀ r ∈ (prune_keep_recent st keep).raws,
      ∃ e ∈ (prune_keep_recent st keep).emails, e.id = r.1) := by
  classical
  have hemails : (prune_keep_recent st keep).emails =
      st.emails.filter (fun e => decide (e.id ∈ topIds st.emails keep)) := rfl
  have hbodies : (prune_keep_recent st keep).bodies =
      st.bodies.filter (fun b =>
        decide (b.1 ∈ ((prune_keep_recent st keep).emails.map
          (fun s => s.id)))) := rfl
  have hraws : (prune_keep_recent st keep).raws =
      st.raws.filter (fun r =>
        decide (r.1 ∈ ((prune_keep_recent st keep).emails.map
          (fun s => s.id)))) := rfl
  have hperm : List.Perm (st.emails.insertionSort rowGE) st.emails :=
    List.perm_insertionSort rowGE st.emails
  have hsortnodup :
      ((st.emails.insertionSort rowGE).map (fun s => s.id)).Nodup :=
    ((hperm.map (fun s => s.id)).nodup_iff).mpr hnodup
  have hsplit : (st.emails.insertionSort rowGE).take keep ++
      (st.emails.insertionSort rowGE).drop keep =
      st.emails.insertionSort rowGE := List.take_append_drop _ _
  have hdisj : ∀ e ∈ (st.emails.insertionSort rowGE).drop keep,
      e.id ∉ topIds st.emails keep := by
    intro e he hin
    have h1 : ((st.emails.insertionSort rowGE).map (fun s => s.id)) =
        ((st.emails.insertionSort rowGE).take keep).map (fun s => s.id) ++
        ((st.emails.insertionSort rowGE).drop keep).map (fun s => s.id) := by
      rw [← List.map_append, hsplit]
    rw [h1] at hsortnodup
    have hd := (List.nodup_append.mp hsortnodup).2.2
    exact hd hin (List.mem_map_of_mem (fun s => s.id) he)
  have hfilter_sorted :
      (st.emails.insertionSort rowGE).filter
        (fun e => decide (e.id ∈ topIds st.emails keep)) =
      (st.emails.insertionSort rowGE).take keep := by
    conv_lhs => rw [← hsplit]
    rw [List.filter_append]
    have h1 : ((st.emails.insertionSort rowGE).take keep).filter
        (fun e => decide (e.id ∈ topIds st.emails keep)) =
        (st.emails.insertionSort rowGE).take keep := by
      apply List.filter_eq_self.mpr
      intro a ha
      exact decide_eq_true (List.mem_map_of_mem (fun s => s.id) ha)
    have h2 : ((st.emails.insertionSort rowGE).drop keep).filter
        (fun e => decide (e.id ∈ topIds st.emails keep)) = [] := by
      apply List.filter_eq_nil_iff.mpr
      intro a ha hpa
      exact hdisj a ha (of_decide_eq_true hpa)
    rw [h1, h2, List.append_nil]
  have hpermf : List.Perm
      ((st.emails.insertionSort rowGE).filter
        (fun e => decide (e.id ∈ topIds st.emails keep)))
      (st.emails.filter
        (fun e => decide (e.id ∈ topIds st.emails keep))) :=
    hperm.filter _
  have hmem_kept : ∀ e ∈ (prune_keep_recent st keep).emails,
      e ∈ (st.emails.insertionSort rowGE).take keep := by
    intro e he
    rw [hemails] at he
    rw [← hfilter_sorted]
    exact hpermf.mem_iff.mpr he
  refine ⟨?_, ?_, ?_, ?_, ?_⟩
  · rw [hemails, ← hpermf.length_eq, hfilter_sorted, List.length_take,
      hperm.length_eq, Nat.min_comm]
  · intro e he
    rw [hemails] at he
    exact List.mem_of_mem_filter he
  · intro e he e' he' hnot
    have hek := hmem_kept e he
    have he'drop : e' ∈ (st.emails.insertionSort rowGE).drop keep := by
      have he'sort : e' ∈ st.emails.insertionSort rowGE := hperm.mem_iff.mpr he'
      rw [← hsplit] at he'sort
      rcases List.mem_append.mp he'sort with hk | hd
      · exfalso
        apply hnot
        rw [hemails]
        apply List.mem_filter.mpr
        exact ⟨he', decide_eq_true (List.mem_map_of_mem (fun s => s.id) hk)⟩
      · exact hd
    have hsorted : (st.emails.insertionSort rowGE).Pairwise rowGE :=
      List.sorted_insertionSort rowGE st.emails
    rw [← hsplit] at hsorted
    exact (List.pairwise_append.mp hsorted).2.2 e hek e' he'drop
  · intro b hb
    rw [hbodies] at hb
    have := List.mem_filter.mp hb
    have hmem := of_decide_eq_true this.2
    rcases List.mem_map.mp hmem with ⟨e, he, heq⟩
    exact ⟨e, he, heq⟩
  · intro r hr
    rw [hraws] at hr
    have := List.mem_filter.mp hr
    have hmem := of_decide_eq_true this.2
    rcases List.mem_map.mp hmem with ⟨e, he, heq⟩
    exact ⟨e, he, heq⟩

/-- Witness for `prune_keep_recent_spec`: a three-row store pruned to two
rows. -/
theorem prune_keep_recent_spec_witness :
    (prune_keep_recent
      ⟨[⟨1, "", "", "", 10⟩, ⟨2, "", "", "", 30⟩, ⟨3, "", "", "", 20⟩],
       [(1, "b1"), (3, "b3")], [(1, [0])], []⟩ 2).emails.length =
      min 3 2 :=
  (prune_keep_recent_spec _ 2 (by decide)).1

mutual

/-- `extract_text_part` returns the head of the `textCandidates` list: the
first text found by a traversal that, at each node, considers the node's
own `text/plain` body, then its subparts left to right, then its own
`text/html` body converted to text. -/
theorem extract_eq_head (lib : MimeLib) :
    ∀ p : ParsedMail, extract_text_part lib p = (textCandidates lib p).head?
  | .mk mimetype body d subparts => by
    have hsubs := extract_subs_eq_head lib subparts
    simp only [extract_text_part, textCandidates]
    by_cases hp : asciiLower mimetype = "text/plain"
    · rw [if_pos hp, if_pos hp]
      cases body with
      | ok s => rfl
      | error e => rfl
    · rw [if_neg hp, if_neg hp, hsubs]
      cases hc : textCandidatesList lib subparts with
      | nil =>
        simp only [List.head?, List.nil_append]
        by_cases hh : asciiLower mimetype = "text/html"
        · rw [if_pos hh, if_pos hh]
          cases body with
          | ok h => rfl
          | error e => rfl
        · rw [if_neg hh, if_neg hh]
      | cons a t =>
        simp only [List.head?, List.cons_append]

/-- The subparts loop of `extract_text_part` returns the head of the
concatenated candidate lists. -/
theorem extract_subs_eq_head (lib : MimeLib) :
    ∀ l : List ParsedMail,
      extract_text_subparts lib l = (textCandidatesList lib l).head?
  | [] => rfl
  | p :: t => by
    have hp := extract_eq_head lib p
    have ht := extract_subs_eq_head lib t
    simp only [extract_text_subparts, textCandidatesList]
    rw [hp]
    cases hc : textCandidates lib p with
    | nil =>
      simp only [List.head?, List.nil_append]
      exact ht
    | cons a s =>
      simp only [List.head?, List.cons_append]

end

/-- Counterexample to claim C7: a fetched message whose envelope carries no
subject field, whose raw body bytes are exactly a `Subject: Hello` header
line, and whose header parser is able to decode that line to `Hello`.
`fetch_page` substitutes the fixed placeholder `(no subject)` instead of
falling back to the raw body bytes. -/
theorem subject_placeholder_cx :
    fetch_page_subject
      ⟨fun _ => Except.error (), fun _ => Except.ok "Hello",
        fun _ => Except.error (), fun _ => ""⟩
      none
      (subjectHeaderLine [72, 101, 108, 108, 111]) = "(no subject)" ∧
    decode_subject
      ⟨fun _ => Except.error (), fun _ => Except.ok "Hello",
        fun _ => Except.error (), fun _ => ""⟩
      [72, 101, 108, 108, 111] = "Hello" ∧
    ("(no subject)" : String) ≠ "Hello" := by
  refine ⟨rfl, rfl, by decide⟩

/-- Claim C7 as amended: when the envelope subject field is present,
`fetch_page` uses `decode_subject` on it (which itself falls back to the
lossy UTF-8 decoding of those bytes on header-parse failure); when the
envelope or its subject field is absent, it substitutes the fixed
placeholder `(no subject)`.  The raw body bytes are never consulted for
the subject. -/
theorem subject_no_fallback (lib : MimeLib) (raw : List Nat) :
    (∀ s, fetch_page_subject lib (some ⟨some s⟩) raw = decode_subject lib s) ∧
    fetch_page_subject lib (some ⟨none⟩) raw = "(no subject)" ∧
    fetch_page_subject lib none raw = "(no subject)" :=
  ⟨fun _ => rfl, rfl, rfl⟩

/-- Counterexample to claim C8: a multipart tree whose first subpart is
`text/html` and whose second subpart is `text/plain`.  The tree contains a
`text/plain` part, yet extraction returns the converted html text `hi`
(the html-to-text conversion degrades to minimal tag stripping here), not
the `text/plain` content `plain body`. -/
theorem html_over_plain_cx :
    hasPlainPart
      (ParsedMail.mk "multipart/alternative" (Except.error ()) none
        [ParsedMail.mk "text/html" (Except.ok "<p>hi</p>") none [],
         ParsedMail.mk "text/plain" (Except.ok "plain body") none []]) =
      true ∧
    extract_text_part
      ⟨fun _ => Except.error (), fun _ => Except.error (),
        fun _ => Except.error (), fun _ => ""⟩
      (ParsedMail.mk "multipart/alternative" (Except.error ()) none
        [ParsedMail.mk "text/html" (Except.ok "<p>hi</p>") none [],
         ParsedMail.mk "text/plain" (Except.ok "plain body") none []]) =
      some "hi" ∧
    (some "hi" : Option String) ≠ some "plain body" := by
  refine ⟨rfl, rfl, by decide⟩

/-- Claim C8 as amended: `extract_text_part` returns the first candidate
of a depth-first traversal in which each node offers its own `text/plain`
body first, then its subparts left to right, then its own `text/html` body
converted to text — so a `text/html` part in an earlier subtree is chosen
over a `text/plain` part in a later sibling subtree; a `text/plain` node
whose body fails to decode yields nothing for its whole subtree.  The
extracted date is the parsed `Date` header, defaulting to epoch 0 when
absent or unparseable. -/
theorem extract_text_priority (lib : MimeLib) (p : ParsedMail) :
    extract_text_part lib p = (textCandidates lib p).head? ∧
    (∀ raw parsed, lib.parseMail raw = Except.ok parsed →
      (extract_best_effort_body_and_date lib raw).2 =
        parsed.dateResult.getD 0) := by
  refine ⟨extract_eq_head lib p, ?_⟩
  intro raw parsed h
  unfold extract_best_effort_body_and_date
  rw [h]

/-- Witness for `extract_text_priority`: a message parsing to a
`text/plain` part whose `Date` header parsed to 42. -/
theorem extract_text_priority_witness :
    (extract_best_effort_body_and_date
      ⟨fun _ => Except.ok (ParsedMail.mk "text/plain" (Except.ok "b")
          (some 42) []),
        fun _ => Except.error (), fun _ => Except.error (),
        fun _ => ""⟩ [0]).2 = 42 :=
  (extract_text_priority
    ⟨fun _ => Except.ok (ParsedMail.mk "text/plain" (Except.ok "b")
        (some 42) []),
      fun _ => Except.error (), fun _ => Except.error (),
      fun _ => ""⟩
    (ParsedMail.mk "" (Except.error ()) none [])).2 [0]
    (ParsedMail.mk "text/plain" (Except.ok "b") (some 42) []) rfl

/-- Claim C10: `extract_best_effort_body_and_date` is total over
arbitrary input bytes — it is a function returning a (string, epoch) pair
on every input, and: on parse failure it returns the lossy UTF-8 decoding
of the raw bytes with date 0; on a parseable message with no extractable
text part it falls back to the message's own body text when that decodes,
and to the lossy raw bytes otherwise; when a text part is extracted, that
text is returned; the date is always the parsed `Date` header defaulting
to 0. -/
theorem extract_best_effort_total (lib : MimeLib) (raw : List Nat) :
    (∀ e, lib.parseMail raw = Except.error e →
      extract_best_effort_body_and_date lib raw =
        (lib.fromUtf8Lossy raw, 0)) ∧
    (∀ parsed, lib.parseMail raw = Except.ok parsed →
      extract_text_part lib parsed = none →
      parsed.body = Except.error () →
      extract_best_effort_body_and_date lib raw =
        (lib.fromUtf8Lossy raw, parsed.dateResult.getD 0)) ∧
    (∀ parsed b, lib.parseMail raw = Except.ok parsed →
      extract_text_part lib parsed = none →
      parsed.body = Except.ok b →
      extract_best_effort_body_and_date lib raw =
        (b, parsed.dateResult.getD 0)) ∧
    (∀ parsed t, lib.parseMail raw = Except.ok parsed →
      extract_text_part lib parsed = some t →
      extract_best_effort_body_and_date lib raw =
        (t, parsed.dateResult.getD 0)) := by
  refine ⟨?_, ?_, ?_, ?_⟩
  · intro e h
    unfold extract_best_effort_body_and_date
    rw [h]
  · intro parsed h hext hbody
    unfold extract_best_effort_body_and_date
    rw [h]
    dsimp only
    rw [hext, hbody]
  · intro parsed b h hext hbody
    unfold extract_best_effort_body_and_date
    rw [h]
    dsimp only
    rw [hext, hbody]
  · intro parsed t h hext
    unfold extract_best_effort_body_and_date
    rw [h]
    dsimp only
    rw [hext]

/-- Witness for `extract_best_effort_total`: unparseable bytes yield the
lossy decoding with date 0. -/
theorem extract_best_effort_total_witness :
    extract_best_effort_body_and_date
      ⟨fun _ => Except.error (), fun _ => Except.error (),
        fun _ => Except.error (), fun _ => "L"⟩ [1, 2] = ("L", 0) :=
  (extract_best_effort_total
    ⟨fun _ => Except.error (), fun _ => Except.error (),
      fun _ => Except.error (), fun _ => "L"⟩ [1, 2]).1 () rfl

/-- Claim C9: a frame whose 4-byte big-endian length prefix exceeds
1,048,576 is rejected with an error that does not depend on (or consume)
any payload bytes; the accept loop answers such a connection with the
structured response `ok: false` / `bad request` and continues serving the
remaining connections; `Ping` is answered with exactly `ok: true` /
`pong`, including through the full framed round trip. -/
theorem ipc_oversize_and_ping :
    (∀ parse b0 b1 b2 b3 rest, be32 b0 b1 b2 b3 > 1024 * 1024 →
      read_len_prefixed_json parse (b0 :: b1 :: b2 :: b3 :: rest) =
        Except.error "IPC message too large") ∧
    (∀ parse sync stream rest,
      (∃ e, read_len_prefixed_json parse stream = Except.error e) →
      drain_ipc parse sync (stream :: rest) =
        ⟨false, some "bad request"⟩ :: drain_ipc parse sync rest) ∧
    (∀ sync, handle_ipc_request sync Request.ping =
      ⟨true, some "pong"⟩) ∧
    (∀ parse sync b0 b1 b2 b3 payload,
      be32 b0 b1 b2 b3 = payload.length →
      payload.length ≤ 1024 * 1024 →
      parse payload = Except.ok Request.ping →
      drain_ipc parse sync [b0 :: b1 :: b2 :: b3 :: payload] =
        [⟨true, some "pong"⟩]) := by
  refine ⟨?_, ?_, ?_, ?_⟩
  · intro parse b0 b1 b2 b3 rest h
    unfold read_len_prefixed_json
    dsimp only
    rw [if_pos h]
  · intro parse sync stream rest h
    rcases h with ⟨e, he⟩
    unfold drain_ipc
    rw [List.map_cons, he]
  · intro sync
    rfl
  · intro parse sync b0 b1 b2 b3 payload hlen hle hparse
    unfold drain_ipc
    simp only [List.map_cons, List.map_nil]
    unfold read_len_prefixed_json
    dsimp only
    rw [hlen]
    rw [if_neg (Nat.not_lt.mpr hle)]
    rw [if_neg (lt_irrefl payload.length)]
    rw [List.take_length, hparse]
    rfl

/-- Witness for `ipc_oversize_and_ping`: prefix 0x00100001 = 1,048,577
with no payload at all is rejected, and a framed 1-byte payload parsing to
`Ping` round-trips to `pong`. -/
theorem ipc_oversize_and_ping_witness :
    read_len_prefixed_json (fun _ => Except.error "x") [0, 16, 0, 1] =
      Except.error "IPC message too large" ∧
    drain_ipc
      (fun l => if l = [1] then Except.ok Request.ping
        else Except.error "bad")
      (fun _ _ => ⟨false, none⟩) [[0, 0, 0, 1, 1]] =
      [⟨true, some "pong"⟩] :=
  ⟨ipc_oversize_and_ping.1 (fun _ => Except.error "x") 0 16 0 1 []
      (by decide),
   ipc_oversize_and_ping.2.2.2
     (fun l => if l = [1] then Except.ok Request.ping
       else Except.error "bad")
     (fun _ _ => ⟨false, none⟩) 0 0 0 1 [1] (by decide) (by decide) rfl⟩

end RsMail
